import Mathlib

/-! Verification development for the user-story / ASVS-requirement analysis
pipeline (files `analisar_historias.py` and `comparar_IA_analistas.py`).

The Python code is shallowly embedded: dictionaries become association
lists (insertion order preserved, value overwritten on repeated key, as
CPython dicts do), Python `set` objects over requirement external ids
become `Finset (Option String)` (the id may be absent, i.e. `None`),
floats become `ℚ` with the Python `round(x, 2)` modeled as exact
half-to-even rounding on rationals, and `str` stays `String` (filename
parsing is carried out on `List Char`).
-/

/-- Requirement entry as it appears nested inside a submission document:
`{id, id_externo, descricao, nivel, fk_Secao_id, marked}`.  Fields read
with `.get` in the source (`id_externo`, `nivel`, `fk_Secao_id`, `marked`)
are optional here; fields read with direct indexing are mandatory. -/
structure Requirement where
  id : String
  id_externo : Option String
  descricao : String
  nivel : Option String
  fk_Secao_id : Option String
  marked : Bool
deriving DecidableEq, Inhabited

/-- One element of `questoesEspecificas`: carries a list of requirements. -/
structure SpecificQuestion where
  descricao : String
  requirements : List Requirement
deriving DecidableEq, Inhabited

/-- One element of `questions`: carries the specific questions. -/
structure Question where
  descricao : String
  questoesEspecificas : List SpecificQuestion
deriving DecidableEq, Inhabited

/-- The `userStory` header of a submission document. -/
structure UserStoryMeta where
  id : String
  what : String
  who : String
  why : String
deriving DecidableEq, Inhabited

/-- A loaded submission together with the `_metadata` attached by
`UserStoryAnalyzer._process_file` (analyst id and story number). -/
structure Story where
  userStory : UserStoryMeta
  questions : List Question
  analyst_id : String
  story_number : String
deriving DecidableEq, Inhabited

/-! Python dict as an association list -/

/-- Lookup in an association list: first binding wins, like reading a
Python dict built without duplicate keys. -/
def lookupDict {α : Type} [DecidableEq α] {β : Type} : List (α × β) → α → Option β
  | [], _ => none
  | p :: rest, k => if k = p.1 then some p.2 else lookupDict rest k

/-- Python `d[k] = x`: replace the value in place if the key exists
(keeping its position, as CPython dicts keep insertion order), otherwise
append the new binding at the end. -/
def dictSet {α β : Type} [DecidableEq α] (m : List (α × β)) (k : α) (x : β) : List (α × β) :=
  if m.any (fun p => decide (p.1 = k)) then
    m.map (fun p => if p.1 = k then (k, x) else p)
  else m ++ [(k, x)]

/-! Order-preserving deduplication (Python `set` insertion behaviour /
dict key order) and a simple sort -/

def dedupFirstAux {α : Type} [DecidableEq α] (seen : List α) : List α → List α
  | [] => []
  | x :: xs => if x ∈ seen then dedupFirstAux seen xs else x :: dedupFirstAux (x :: seen) xs

/-- Keep the first occurrence of each element, dropping later duplicates. -/
def dedupFirst {α : Type} [DecidableEq α] (l : List α) : List α :=
  dedupFirstAux [] l

def insertSorted {α : Type} (le : α → α → Bool) (x : α) : List α → List α
  | [] => [x]
  | y :: ys => if le x y then x :: y :: ys else y :: insertSorted le x ys

/-- Insertion sort with a boolean comparison, modelling Python `sorted`. -/
def sortBy {α : Type} (le : α → α → Bool) (l : List α) : List α :=
  l.foldr (insertSorted le) []

/-! Extraction of requirements from the nested document structure -/

/-- All requirement entries of a submission, in the nested iteration order
used by both `_extract_requirements_info` and `get_marked_requirements`. -/
def allReqs (s : Story) : List Requirement :=
  (s.questions.flatMap (fun q => q.questoesEspecificas)).flatMap (fun sq => sq.requirements)

/-- `UserStoryAnalyzer.get_marked_requirements`: the requirement entries
whose `marked` flag is true, in document order (duplicates kept). -/
def get_marked_requirements (s : Story) : List Requirement :=
  (allReqs s).filter (fun r => r.marked)

/-- `UserStoryAnalyzer.get_requirement_frequency` read at one key: the
`Counter` increments once per marked occurrence, so the frequency of `r`
is the total number of marked entries with `id_externo = r` over all
loaded stories (no per-submission deduplication in the source). -/
def get_requirement_frequency (stories : List Story) (r : Option String) : Nat :=
  (stories.map (fun s =>
    ((get_marked_requirements s).filter (fun q => decide (q.id_externo = r))).length)).sum

/-! Requirement catalog (`_extract_requirements_info`) -/

/-- The value stored in `self.requirements_by_id`. -/
structure CatalogEntry where
  id : String
  id_externo : String
  descricao : String
  nivel : String
  secao_id : Option String
deriving DecidableEq, Inhabited

/-- Python truthiness of `requirement.get(id_externo)`: `None` and the
empty string are falsy. -/
def truthyOpt (o : Option String) : Bool :=
  match o with
  | none => false
  | some s => decide (s ≠ "")

/-- The entry written for one requirement sighting. -/
def mkCatalogEntry (r : Requirement) : CatalogEntry :=
  { id := r.id
    id_externo := r.id_externo.getD ""
    descricao := r.descricao
    nivel := r.nivel.getD "N/A"
    secao_id := r.fk_Secao_id }

/-- `UserStoryAnalyzer._extract_requirements_info`: every requirement with
a truthy `id_externo` is written into the catalog dict under its
internal `id` (note: the source keys by `requirement[id]`, and a plain
dict assignment overwrites any earlier entry for the same key). -/
def extract_requirements_info (catalog : List (String × CatalogEntry)) (s : Story) :
    List (String × CatalogEntry) :=
  (allReqs s).foldl
    (fun c r => if truthyOpt r.id_externo then dictSet c r.id (mkCatalogEntry r) else c)
    catalog

/-! Inter-analyst agreement (`UserStoryAnalyzer.get_analyst_agreement`) -/

/-- The set built by `set(req.get(id_externo) for req in marked)`:
a marked requirement with no `id_externo` contributes `none`. -/
def markedSet (s : Story) : Finset (Option String) :=
  ((get_marked_requirements s).map (fun r => r.id_externo)).toFinset

/-- The submissions grouped under one story number
(`stories_by_number[story_number]`, in load order). -/
def variants (stories : List Story) (n : String) : List Story :=
  stories.filter (fun s => decide (s.story_number = n))

/-- The `analyst_requirements` dict for the submissions of one story: iterating
the submissions in order, `analyst_requirements[analyst_id] = marked_reqs`
overwrites, so an analyst with several submissions keeps only the last. -/
def analyst_requirements (v : List Story) : List (String × Finset (Option String)) :=
  v.foldl (fun m s => dictSet m s.analyst_id (markedSet s)) []

/-- `all_marked`: start from the empty set and union in the set of every analyst (`all_marked.update(reqs)`). -/
def unionAll (l : List (Finset (Option String))) : Finset (Option String) :=
  l.foldl (fun a b => a ∪ b) ∅

/-- `common_marked`: seeded with the set of the first analyst, then intersected
with each further one (common_marked &= reqs); the `None`-to-empty-set
fallback of the source corresponds to the `[]` case. -/
def interAll : List (Finset (Option String)) → Finset (Option String)
  | [] => ∅
  | x :: xs => xs.foldl (fun a b => a ∩ b) x

/-- One row of the agreement DataFrame. -/
structure AgreementRecord where
  story_number : String
  story_id : String
  analysts_count : Nat
  total_unique_requirements : Nat
  common_requirements : Nat
  agreement_ratio : ℚ
  what : String
  who : String
  why : String
deriving DecidableEq, Inhabited

/-- The record appended for a story number that passes both guards.
`agreement_ratio` is `common/total` when `total > 0` and `1.0` otherwise,
exactly as in the source; story metadata comes from `story_variants[0]`. -/
def agreementRecordFor (stories : List Story) (n : String) : AgreementRecord :=
  { story_number := n
    story_id := ((variants stories n).head?.map (fun s => s.userStory.id)).getD ""
    analysts_count := (analyst_requirements (variants stories n)).length
    total_unique_requirements :=
      (unionAll ((analyst_requirements (variants stories n)).map Prod.snd)).card
    common_requirements :=
      (interAll ((analyst_requirements (variants stories n)).map Prod.snd)).card
    agreement_ratio :=
      if 0 < (unionAll ((analyst_requirements (variants stories n)).map Prod.snd)).card then
        ((interAll ((analyst_requirements (variants stories n)).map Prod.snd)).card : ℚ) /
          ((unionAll ((analyst_requirements (variants stories n)).map Prod.snd)).card : ℚ)
      else 1
    what := ((variants stories n).head?.map (fun s => s.userStory.what)).getD ""
    who := ((variants stories n).head?.map (fun s => s.userStory.who)).getD ""
    why := ((variants stories n).head?.map (fun s => s.userStory.why)).getD "" }

/-- The body of the per-story loop: `continue` when the story has at most
one submission, and only emit a record when at least two distinct
analysts remain in `analyst_requirements`. -/
def agreementFor (stories : List Story) (n : String) : Option AgreementRecord :=
  if (variants stories n).length ≤ 1 then none
  else if 2 ≤ (analyst_requirements (variants stories n)).length then
    some (agreementRecordFor stories n)
  else none

/-- `UserStoryAnalyzer.get_analyst_agreement`: the rows, one per story
number (story numbers iterate in first-appearance order, as the keys of
the `defaultdict` do). -/
def get_analyst_agreement (stories : List Story) : List AgreementRecord :=
  (dedupFirst (stories.map (fun s => s.story_number))).filterMap (agreementFor stories)

/-! Filename parsing in `_process_file`

The source matches `re.compile(r"g\d+(\w+)_(\d+)\.json").match(filename)`.
`re.match` anchors at the start only; the matcher below reproduces the
backtracking search: the leading digit run is taken greedily and given
back one digit at a time, and for each choice the `\w+` group is taken
greedily and given back until the literal `_` matches, after which
`(\d+)\.json` is deterministic because a digit can never start `.json`.
Character classes are the ASCII readings of `\d` and `\w` (the data uses
ASCII filenames). -/

def isWordChar (c : Char) : Bool := c.isAlphanum || decide (c = '_')

/-- Match `(\d+)\.json` at the head of the input, returning the digit
group.  The digit run is forced to be maximal since `.` is not a digit. -/
def numJson (cs : List Char) : Option (List Char) :=
  let ds := cs.takeWhile (fun c => c.isDigit)
  if ds.isEmpty then none
  else
    match cs.drop ds.length with
    | '.' :: 'j' :: 's' :: 'o' :: 'n' :: _ => some ds
    | _ => none

/-- Try to place the literal `_` of the pattern at index `j` of `full`,
with the nonempty `\w+` group occupying the first `j` characters. -/
def tryUnderscoreAt (full : List Char) (j : Nat) : Option (List Char × List Char) :=
  if 1 ≤ j ∧ (full.take j).all isWordChar ∧ full.get? j = some '_' then
    (numJson (full.drop (j + 1))).map (fun nd => (full.take j, nd))
  else none

/-- Greedy `\w+`: try the underscore at positions `j, j-1, ..., 1`. -/
def tryUnderscoreDown (full : List Char) : Nat → Option (List Char × List Char)
  | 0 => none
  | j + 1 =>
    match tryUnderscoreAt full (j + 1) with
    | some r => some r
    | none => tryUnderscoreDown full j

/-- Greedy leading `\d+`: try run lengths `i, i-1, ..., 1`. -/
def tryDigitsDown (rest : List Char) : Nat → Option (List Char × List Char)
  | 0 => none
  | i + 1 =>
    if (rest.take (i + 1)).all (fun c => c.isDigit) then
      match tryUnderscoreDown (rest.drop (i + 1)) (rest.drop (i + 1)).length with
      | some r => some r
      | none => tryDigitsDown rest i
    else tryDigitsDown rest i

/-- `self.story_pattern.match(filename)`: on success, the pair
`(match.group(1), match.group(2))`. -/
def storyPatternMatch (filename : String) : Option (String × String) :=
  match filename.data with
  | 'g' :: rest =>
    (tryDigitsDown rest (rest.takeWhile (fun c => c.isDigit)).length).map
      (fun p => (⟨p.1⟩, ⟨p.2⟩))
  | _ => none

/-- Split a character list at every occurrence of `sep`, Python
`str.split(sep)` style: splitting the empty string gives `[""]`, and
adjacent separators give empty segments. -/
def splitCh (sep : Char) : List Char → List (List Char)
  | [] => [[]]
  | c :: cs =>
    match splitCh sep cs with
    | [] => [[c]]
    | h :: t => if c = sep then [] :: h :: t else (c :: h) :: t

/-- Python `s.split(sep)` for a one-character separator. -/
def pySplit (s : String) (sep : Char) : List String :=
  (splitCh sep s.data).map (fun l => ⟨l⟩)

/-- The fallback identity resolution of `_process_file` when the pattern
fails: `parts = filename.split('_')`; `parts[0]` as analyst id (a split
always has a first segment, so the "unknown" default is only a guard);
`parts[1].split('.')[0]` as story number when a second segment exists,
else the literal "unknown". -/
def fallbackIdentity (filename : String) : String × String :=
  match pySplit filename '_' with
  | [] => ("unknown", "unknown")
  | [p] => (p, "unknown")
  | p :: p2 :: _ =>
    (p, match pySplit p2 '.' with
        | [] => ""
        | q :: _ => q)

/-- Identity resolution of `_process_file`: the regex result when it
matches, the fallback otherwise, and a truthy folder-derived analyst id
overrides the analyst component. -/
def processFileIdentity (filename : String) (analyst_dir : Option String) : String × String :=
  let base :=
    match storyPatternMatch filename with
    | some (a, n) => (a, n)
    | none => fallbackIdentity filename
  match analyst_dir with
  | some d => if d ≠ "" then (d, base.2) else base
  | none => base

/-! Human-vs-automated comparison (`comparar_IA_analistas.py`) -/

/-- Round a rational to the nearest integer, ties to even, which is the
rounding Python `round` applies; binary-float representation noise is out
of scope since floats are embedded as exact rationals. -/
def roundHalfEvenZ (q : ℚ) : ℤ :=
  if q - Int.floor q < 1 / 2 then Int.floor q
  else if 1 / 2 < q - Int.floor q then Int.floor q + 1
  else if Int.floor q % 2 = 0 then Int.floor q else Int.floor q + 1

/-- Python `round(x, 2)`. -/
def round2 (q : ℚ) : ℚ :=
  (roundHalfEvenZ (q * 100) : ℚ) / 100

/-- Lexicographic code-point comparison on character lists: exactly the
order Python `sorted` applies to `str` values. -/
def charListLe : List Char → List Char → Bool
  | [], _ => true
  | _ :: _, [] => false
  | a :: as, b :: bs => if a = b then charListLe as bs else decide (a < b)

/-- String order used by Python `sorted` on the question codes
(lexicographic by code point). -/
def strLe (a b : String) : Bool := charListLe a.data b.data

/-- Python `set(l)` materialised as the list of distinct elements of `l`
(first occurrences, i.e. set insertion order). -/
def pySetList (l : List String) : List String := dedupFirst l

/-- One row of the `comparar` output DataFrame. -/
structure ComparisonRecord where
  story_number : Int
  marcacoes_ia : List String
  marcacoes_analistas : List String
  intersecao : List String
  so_ia : List String
  so_analistas : List String
  acuracia : ℚ
deriving DecidableEq, Inhabited

/-- The row built for one story number `h`: `q_ia = set(ia.get(h, []))`,
`q_an = set(analistas.get(h, []))`, the sorted set-difference columns, and
`acuracia = round(|q_ia ∩ q_an| / |q_ia| * 100, 2)` when `q_ia` is truthy
(non-empty) and `0.0` otherwise. -/
def comparisonRowFor (ia analistas : List (Int × List String)) (h : Int) : ComparisonRecord :=
  { story_number := h
    marcacoes_ia := sortBy strLe (pySetList ((lookupDict ia h).getD []))
    marcacoes_analistas := sortBy strLe (pySetList ((lookupDict analistas h).getD []))
    intersecao := sortBy strLe ((pySetList ((lookupDict ia h).getD [])).filter
      (fun x => decide (x ∈ (lookupDict analistas h).getD [])))
    so_ia := sortBy strLe ((pySetList ((lookupDict ia h).getD [])).filter
      (fun x => decide (x ∉ (lookupDict analistas h).getD [])))
    so_analistas := sortBy strLe ((pySetList ((lookupDict analistas h).getD [])).filter
      (fun x => decide (x ∉ (lookupDict ia h).getD [])))
    acuracia :=
      if (pySetList ((lookupDict ia h).getD [])).isEmpty then 0
      else
        round2 ((((pySetList ((lookupDict ia h).getD [])).filter
            (fun x => decide (x ∈ (lookupDict analistas h).getD []))).length : ℚ) /
          ((pySetList ((lookupDict ia h).getD [])).length : ℚ) * 100) }

/-- `comparar(ia, analistas)`: one row per story number of
`sorted(set(ia.keys()) | set(analistas.keys()))`.  The two inputs stand
for the Python dicts keyed by story number (first binding wins on
lookup, as dict construction admits no duplicate key). -/
def comparar (ia analistas : List (Int × List String)) : List ComparisonRecord :=
  (sortBy (fun a b => decide (a ≤ b))
      (dedupFirst (ia.map (fun p => p.1) ++ analistas.map (fun p => p.1)))).map
    (comparisonRowFor ia analistas)

/-! Association-list (dict) lemmas -/

theorem lookupDict_append_of_forall {α : Type} [DecidableEq α] {β : Type}
    (m l : List (α × β)) (k : α) (h : ∀ p ∈ m, p.1 ≠ k) :
    lookupDict (m ++ l) k = lookupDict l k := by
  induction m with
  | nil => rfl
  | cons p rest ih =>
    have hp : p.1 ≠ k := h p (List.mem_cons_self p rest)
    show (if k = p.1 then some p.2 else lookupDict (rest ++ l) k) = lookupDict l k
    rw [if_neg (fun hk => hp hk.symm)]
    exact ih (fun q hq => h q (List.mem_cons_of_mem p hq))

theorem lookupDict_map_replace_self {α : Type} [DecidableEq α] {β : Type}
    (m : List (α × β)) (k : α) (x : β) :
    lookupDict (m.map (fun p => if p.1 = k then (k, x) else p)) k =
      if m.any (fun p => decide (p.1 = k)) then some x else none := by
  induction m with
  | nil => rfl
  | cons p rest ih =>
    simp only [List.map_cons, List.any_cons]
    by_cases hk : p.1 = k
    · rw [if_pos hk]
      simp [lookupDict, hk]
    · rw [if_neg hk]
      simp only [lookupDict, ih, decide_eq_false hk, Bool.false_or]
      rw [if_neg (fun h => hk h.symm)]

theorem lookupDict_map_replace_other {α : Type} [DecidableEq α] {β : Type}
    (m : List (α × β)) (k k2 : α) (x : β) (hne : k2 ≠ k) :
    lookupDict (m.map (fun p => if p.1 = k then (k, x) else p)) k2 = lookupDict m k2 := by
  induction m with
  | nil => rfl
  | cons p rest ih =>
    simp only [List.map_cons]
    by_cases hk : p.1 = k
    · rw [if_pos hk]
      simp only [lookupDict, if_neg hne, if_neg (fun h : k2 = p.1 => hne (h.trans hk)), ih]
    · rw [if_neg hk]
      simp only [lookupDict, ih]

/-- Writing a key then reading it back gives the written value. -/
theorem lookupDict_dictSet_self {α : Type} [DecidableEq α] {β : Type}
    (m : List (α × β)) (k : α) (x : β) :
    lookupDict (dictSet m k x) k = some x := by
  unfold dictSet
  by_cases h : m.any (fun p => decide (p.1 = k)) = true
  · rw [if_pos h, lookupDict_map_replace_self, if_pos h]
  · rw [if_neg h, lookupDict_append_of_forall]
    · simp [lookupDict]
    · intro p hp hk
      exact h (List.any_eq_true.mpr ⟨p, hp, by simpa using hk⟩)

/-- Writing one key leaves every other key unchanged. -/
theorem lookupDict_dictSet_other {α : Type} [DecidableEq α] {β : Type}
    (m : List (α × β)) (k k2 : α) (x : β) (hne : k2 ≠ k) :
    lookupDict (dictSet m k x) k2 = lookupDict m k2 := by
  unfold dictSet
  by_cases hany : m.any (fun p => decide (p.1 = k)) = true
  · rw [if_pos hany]
    exact lookupDict_map_replace_other m k k2 x hne
  · rw [if_neg hany]
    clear hany
    induction m with
    | nil => simp [lookupDict, if_neg hne]
    | cons p rest ih =>
      show (if k2 = p.1 then some p.2 else lookupDict (rest ++ [(k, x)]) k2) =
        if k2 = p.1 then some p.2 else lookupDict rest k2
      split
      · rfl
      · exact ih

/-! Lemmas about `dedupFirst` -/

theorem mem_dedupFirstAux {α : Type} [DecidableEq α] (a : α) :
    ∀ (l seen : List α), a ∈ dedupFirstAux seen l ↔ a ∈ l ∧ a ∉ seen := by
  intro l
  induction l with
  | nil => intro seen; simp [dedupFirstAux]
  | cons x xs ih =>
    intro seen
    by_cases hx : x ∈ seen
    · rw [dedupFirstAux, if_pos hx, ih]
      constructor
      · exact fun h => ⟨List.mem_cons_of_mem x h.1, h.2⟩
      · rintro ⟨h1, h2⟩
        rcases List.mem_cons.mp h1 with h | h
        · exact absurd (h ▸ hx) h2
        · exact ⟨h, h2⟩
    · rw [dedupFirstAux, if_neg hx]
      constructor
      · intro h
        rcases List.mem_cons.mp h with h | h
        · exact ⟨h ▸ List.mem_cons_self x xs, h ▸ hx⟩
        · have h2 := (ih (x :: seen)).mp h
          exact ⟨List.mem_cons_of_mem x h2.1, fun hs => h2.2 (List.mem_cons_of_mem x hs)⟩
      · rintro ⟨h1, h2⟩
        rcases List.mem_cons.mp h1 with h | h
        · exact h ▸ List.mem_cons_self x _
        · by_cases hax : a = x
          · exact hax ▸ List.mem_cons_self x _
          · exact List.mem_cons_of_mem x
              ((ih (x :: seen)).mpr ⟨h, fun hs => (List.mem_cons.mp hs).elim hax h2⟩)

theorem mem_dedupFirst {α : Type} [DecidableEq α] (a : α) (l : List α) :
    a ∈ dedupFirst l ↔ a ∈ l := by
  rw [dedupFirst, mem_dedupFirstAux]
  simp

/-! Folding dict writes -/

/-- A guarded fold of dict writes equals the unguarded fold over the
filtered list. -/
theorem foldl_guard {γ δ : Type} (p : γ → Bool) (f : δ → γ → δ) :
    ∀ (l : List γ) (m : δ),
      l.foldl (fun acc x => if p x then f acc x else acc) m = (l.filter p).foldl f m := by
  intro l
  induction l with
  | nil => intro m; rfl
  | cons x rest ih =>
    intro m
    by_cases hx : p x = true
    · simp [List.foldl_cons, List.filter_cons, hx, ih]
    · simp [List.foldl_cons, List.filter_cons, hx, ih]

theorem getLast?_cons_of_ne_nil {γ : Type} (x : γ) (l : List γ) (h : l ≠ []) :
    (x :: l).getLast? = l.getLast? := by
  cases l with
  | nil => exact absurd rfl h
  | cons y ys => simp [List.getLast?_cons_cons]

/-- Reading key `a` after a fold of dict writes yields the value written
for the LAST element with key `a`, or falls back to the initial dict. -/
theorem lookupDict_foldl_dictSet {γ β : Type} (key : γ → String) (val : γ → β) :
    ∀ (l : List γ) (m : List (String × β)) (a : String),
      lookupDict (l.foldl (fun acc x => dictSet acc (key x) (val x)) m) a =
        ((l.filter (fun x => decide (key x = a))).getLast?).elim
          (lookupDict m a) (fun x => some (val x)) := by
  intro l
  induction l with
  | nil => intro m a; rfl
  | cons x rest ih =>
    intro m a
    rw [List.foldl_cons, ih]
    by_cases hx : key x = a
    · rw [List.filter_cons_of_pos (by simpa using hx)]
      cases hrest : (rest.filter (fun x => decide (key x = a))).getLast? with
      | some y =>
        rw [getLast?_cons_of_ne_nil x _ (by intro hnil; rw [hnil] at hrest; cases hrest), hrest]
        rfl
      | none =>
        have hnil : rest.filter (fun x => decide (key x = a)) = [] := by
          cases h : rest.filter (fun x => decide (key x = a)) with
          | nil => rfl
          | cons z zs => rw [h] at hrest; simp [List.getLast?_concat] at hrest
        rw [hnil]
        simp only [List.getLast?_singleton]
        rw [hx]
        exact lookupDict_dictSet_self m a (val x)
    · rw [List.filter_cons_of_neg (by simpa using hx)]
      cases (rest.filter (fun x => decide (key x = a))).getLast? with
      | some y => rfl
      | none => exact lookupDict_dictSet_other m (key x) a (val x) (fun h => hx h.symm)

/-! Key-set lemmas for `dictSet` folds -/

theorem mem_keys_dictSet_self {α β : Type} [DecidableEq α] (m : List (α × β)) (k : α) (x : β) :
    k ∈ (dictSet m k x).map Prod.fst := by
  unfold dictSet
  by_cases hany : m.any (fun p => decide (p.1 = k)) = true
  · rw [if_pos hany]
    rcases List.any_eq_true.mp hany with ⟨p, hp, hpk⟩
    refine List.mem_map.mpr ⟨(k, x), List.mem_map.mpr ⟨p, hp, ?_⟩, rfl⟩
    rw [if_pos (by simpa using hpk)]
  · rw [if_neg hany]
    simp

theorem mem_keys_dictSet_mono {α β : Type} [DecidableEq α] (m : List (α × β)) (k a : α) (x : β)
    (h : a ∈ m.map Prod.fst) : a ∈ (dictSet m k x).map Prod.fst := by
  unfold dictSet
  rcases List.mem_map.mp h with ⟨p, hp, hpa⟩
  by_cases hany : m.any (fun p => decide (p.1 = k)) = true
  · rw [if_pos hany]
    by_cases hpk : p.1 = k
    · rcases List.any_eq_true.mp hany with ⟨q, hq, hqk⟩
      refine List.mem_map.mpr ⟨(k, x), List.mem_map.mpr ⟨p, hp, by rw [if_pos hpk]⟩, ?_⟩
      exact hpa ▸ hpk ▸ rfl
    · exact List.mem_map.mpr ⟨p, List.mem_map.mpr ⟨p, hp, by rw [if_neg hpk]⟩, hpa⟩
  · rw [if_neg hany]
    exact List.mem_map.mpr ⟨p, List.mem_append_left _ hp, hpa⟩

theorem length_dictSet_le {α β : Type} [DecidableEq α] (m : List (α × β)) (k : α) (x : β) :
    (dictSet m k x).length ≤ m.length + 1 := by
  unfold dictSet
  by_cases hany : m.any (fun p => decide (p.1 = k)) = true
  · rw [if_pos hany, List.length_map]
    exact Nat.le_succ _
  · rw [if_neg hany, List.length_append]
    exact Nat.le_refl _

/-! Structure of `analyst_requirements` -/

theorem keys_foldl_mono (v : List Story) :
    ∀ (m : List (String × Finset (Option String))) (a : String),
      a ∈ m.map Prod.fst →
      a ∈ (v.foldl (fun m s => dictSet m s.analyst_id (markedSet s)) m).map Prod.fst := by
  induction v with
  | nil => intro m a h; exact h
  | cons s rest ih =>
    intro m a h
    exact ih _ a (mem_keys_dictSet_mono m s.analyst_id a (markedSet s) h)

theorem analyst_mem_keys_foldl (s : Story) :
    ∀ (v : List Story) (m : List (String × Finset (Option String))), s ∈ v →
      s.analyst_id ∈ (v.foldl (fun m t => dictSet m t.analyst_id (markedSet t)) m).map Prod.fst := by
  intro v
  induction v with
  | nil => intro m hs; cases hs
  | cons t rest ih =>
    intro m hs
    rcases List.mem_cons.mp hs with h | h
    · subst h
      rw [List.foldl_cons]
      exact keys_foldl_mono rest _ _ (mem_keys_dictSet_self m s.analyst_id (markedSet s))
    · rw [List.foldl_cons]
      exact ih _ h

/-- The analyst of every submission appears among the keys of the dict. -/
theorem analyst_mem_keys (v : List Story) (s : Story) (hs : s ∈ v) :
    s.analyst_id ∈ (analyst_requirements v).map Prod.fst :=
  analyst_mem_keys_foldl s v [] hs

/-- Two distinct members force length at least two. -/
theorem two_le_length_of_two_mem {γ : Type} {l : List γ} {a b : γ} (ha : a ∈ l) (hb : b ∈ l)
    (hne : a ≠ b) : 2 ≤ l.length := by
  cases l with
  | nil => cases ha
  | cons x rest =>
    cases rest with
    | nil =>
      rcases List.mem_singleton.mp ha with rfl
      rcases List.mem_singleton.mp hb with rfl
      exact absurd rfl hne
    | cons y ys => simp [Nat.succ_le_succ, Nat.le_add_left]

/-- The dict never has more entries than the submissions that built it. -/
theorem analyst_requirements_length_le_foldl :
    ∀ (v : List Story) (m : List (String × Finset (Option String))),
      (v.foldl (fun m t => dictSet m t.analyst_id (markedSet t)) m).length ≤ m.length + v.length := by
  intro v
  induction v with
  | nil => intro m; exact Nat.le_refl _
  | cons t rest ih =>
    intro m
    rw [List.foldl_cons]
    calc (rest.foldl (fun m t => dictSet m t.analyst_id (markedSet t))
            (dictSet m t.analyst_id (markedSet t))).length
        ≤ (dictSet m t.analyst_id (markedSet t)).length + rest.length := ih _
      _ ≤ (m.length + 1) + rest.length :=
          Nat.add_le_add_right (length_dictSet_le m t.analyst_id (markedSet t)) _
      _ = m.length + (t :: rest).length := by simp [List.length_cons]; omega

theorem analyst_requirements_length_le (v : List Story) :
    (analyst_requirements v).length ≤ v.length := by
  have h := analyst_requirements_length_le_foldl v []
  simpa using h

/-- When every submission of `v` comes from the same analyst `a`, the
dict is empty or a single binding for `a`. -/
theorem analyst_requirements_single_foldl (a : String) :
    ∀ (v : List Story) (m : List (String × Finset (Option String))),
      (∀ s ∈ v, s.analyst_id = a) →
      (m = [] ∨ ∃ x, m = [(a, x)]) →
      ((v.foldl (fun m t => dictSet m t.analyst_id (markedSet t)) m) = [] ∨
        ∃ x, (v.foldl (fun m t => dictSet m t.analyst_id (markedSet t)) m) = [(a, x)]) := by
  intro v
  induction v with
  | nil => intro m _ hm; exact hm
  | cons t rest ih =>
    intro m hall hm
    rw [List.foldl_cons]
    refine ih _ (fun s hs => hall s (List.mem_cons_of_mem t hs)) ?_
    have ht : t.analyst_id = a := hall t (List.mem_cons_self t rest)
    rcases hm with hm | ⟨x, hm⟩
    · subst hm
      right
      exact ⟨markedSet t, by rw [ht]; rfl⟩
    · subst hm
      right
      refine ⟨markedSet t, ?_⟩
      rw [ht]
      unfold dictSet
      rw [if_pos (by simp)]
      simp

/-- One analyst only: the guard `len(analyst_requirements) >= 2` fails. -/
theorem analyst_requirements_length_le_one (v : List Story) (a : String)
    (hall : ∀ s ∈ v, s.analyst_id = a) : (analyst_requirements v).length ≤ 1 := by
  rcases analyst_requirements_single_foldl a v [] hall (Or.inl rfl) with h | ⟨x, h⟩
  · unfold analyst_requirements
    rw [h]
    exact Nat.zero_le 1
  · unfold analyst_requirements
    rw [h]
    exact Nat.le_refl 1

/-! Membership in `unionAll` and `interAll` -/

theorem mem_foldl_union (x : Option String) :
    ∀ (l : List (Finset (Option String))) (acc : Finset (Option String)),
      x ∈ l.foldl (fun a b => a ∪ b) acc ↔ x ∈ acc ∨ ∃ s ∈ l, x ∈ s := by
  intro l
  induction l with
  | nil => intro acc; simp
  | cons t rest ih =>
    intro acc
    rw [List.foldl_cons, ih]
    simp only [Finset.mem_union, List.mem_cons]
    constructor
    · rintro (⟨h | h⟩ | ⟨s, hs, hx⟩)
      · exact Or.inl h
      · exact Or.inr ⟨t, Or.inl rfl, h⟩
      · exact Or.inr ⟨s, Or.inr hs, hx⟩
    · rintro (h | ⟨s, hs | hs, hx⟩)
      · exact Or.inl (Or.inl h)
      · exact Or.inl (Or.inr (hs ▸ hx))
      · exact Or.inr ⟨s, hs, hx⟩

theorem mem_foldl_inter (x : Option String) :
    ∀ (l : List (Finset (Option String))) (acc : Finset (Option String)),
      x ∈ l.foldl (fun a b => a ∩ b) acc ↔ x ∈ acc ∧ ∀ s ∈ l, x ∈ s := by
  intro l
  induction l with
  | nil => intro acc; simp
  | cons t rest ih =>
    intro acc
    rw [List.foldl_cons, ih]
    simp only [Finset.mem_inter, List.mem_cons]
    constructor
    · rintro ⟨⟨h1, h2⟩, h3⟩
      exact ⟨h1, fun s hs => hs.elim (fun h => h ▸ h2) (h3 s)⟩
    · rintro ⟨h1, h2⟩
      exact ⟨⟨h1, h2 t (Or.inl rfl)⟩, fun s hs => h2 s (Or.inr hs)⟩

theorem mem_unionAll (x : Option String) (l : List (Finset (Option String))) :
    x ∈ unionAll l ↔ ∃ s ∈ l, x ∈ s := by
  rw [unionAll, mem_foldl_union]
  simp

theorem mem_interAll (x : Option String) (l : List (Finset (Option String)))
    (hl : l ≠ []) : x ∈ interAll l ↔ ∀ s ∈ l, x ∈ s := by
  cases l with
  | nil => exact absurd rfl hl
  | cons t rest =>
    rw [interAll, mem_foldl_inter]
    simp only [List.mem_cons]
    constructor
    · rintro ⟨h1, h2⟩
      exact fun s hs => hs.elim (fun h => h ▸ h1) (h2 s)
    · intro h
      exact ⟨h t (Or.inl rfl), fun s hs => h s (Or.inr hs)⟩

theorem interAll_subset_unionAll (l : List (Finset (Option String))) (hl : l ≠ []) :
    interAll l ⊆ unionAll l := by
  intro x hx
  rw [mem_interAll x l hl] at hx
  rw [mem_unionAll]
  cases l with
  | nil => exact absurd rfl hl
  | cons t rest => exact ⟨t, List.mem_cons_self t rest, hx t (List.mem_cons_self t rest)⟩

/-- When all the sets coincide, the intersection equals the union. -/
theorem interAll_eq_unionAll_of_all_eq (l : List (Finset (Option String))) (hl : l ≠ [])
    (hall : ∀ s ∈ l, ∀ t ∈ l, s = t) : interAll l = unionAll l := by
  apply Finset.ext
  intro x
  rw [mem_interAll x l hl, mem_unionAll]
  cases l with
  | nil => exact absurd rfl hl
  | cons u rest =>
    constructor
    · intro h
      exact ⟨u, List.mem_cons_self u rest, h u (List.mem_cons_self u rest)⟩
    · rintro ⟨s, hs, hx⟩
      intro t ht
      rw [hall t ht s hs]
      exact hx

/-! Producing and inverting agreement records -/

theorem mem_variants (stories : List Story) (n : String) (s : Story) :
    s ∈ variants stories n ↔ s ∈ stories ∧ s.story_number = n := by
  rw [variants, List.mem_filter]
  simp

theorem agreement_record_mem (stories : List Story) (n : String)
    (h1 : ¬ (variants stories n).length ≤ 1)
    (h2 : 2 ≤ (analyst_requirements (variants stories n)).length) :
    agreementRecordFor stories n ∈ get_analyst_agreement stories := by
  have hpos : 0 < (variants stories n).length := by omega
  rcases List.exists_mem_of_length_pos hpos with ⟨s, hs⟩
  rcases (mem_variants stories n s).mp hs with ⟨hmem, hnum⟩
  have hn : n ∈ dedupFirst (stories.map (fun s => s.story_number)) := by
    rw [mem_dedupFirst]
    exact List.mem_map.mpr ⟨s, hmem, hnum⟩
  refine List.mem_filterMap.mpr ⟨n, hn, ?_⟩
  rw [agreementFor, if_neg h1, if_pos h2]

/-- From two submissions of the same story by distinct analysts, both
guards of the per-story loop pass. -/
theorem agreement_guards_of_two (stories : List Story) (n : String) (s1 s2 : Story)
    (hs1 : s1 ∈ variants stories n) (hs2 : s2 ∈ variants stories n)
    (hne : s1.analyst_id ≠ s2.analyst_id) :
    ¬ (variants stories n).length ≤ 1 ∧
      2 ≤ (analyst_requirements (variants stories n)).length := by
  have hsne : s1 ≠ s2 := fun h => hne (h ▸ rfl)
  have hv : 2 ≤ (variants stories n).length := two_le_length_of_two_mem hs1 hs2 hsne
  have hk1 := analyst_mem_keys (variants stories n) s1 hs1
  have hk2 := analyst_mem_keys (variants stories n) s2 hs2
  have hkeys : 2 ≤ ((analyst_requirements (variants stories n)).map Prod.fst).length :=
    two_le_length_of_two_mem hk1 hk2 hne
  rw [List.length_map] at hkeys
  exact ⟨by omega, hkeys⟩

theorem agreement_mem_inv (stories : List Story) (rec : AgreementRecord)
    (h : rec ∈ get_analyst_agreement stories) :
    ∃ n, rec = agreementRecordFor stories n ∧
      ¬ (variants stories n).length ≤ 1 ∧
      2 ≤ (analyst_requirements (variants stories n)).length := by
  rcases List.mem_filterMap.mp h with ⟨n, _, heq⟩
  rw [agreementFor] at heq
  by_cases h1 : (variants stories n).length ≤ 1
  · rw [if_pos h1] at heq
    cases heq
  · rw [if_neg h1] at heq
    by_cases h2 : 2 ≤ (analyst_requirements (variants stories n)).length
    · rw [if_pos h2] at heq
      exact ⟨n, (Option.some_inj.mp heq).symm, h1, h2⟩
    · rw [if_neg h2] at heq
      cases heq

/-! Concrete demonstration inputs -/

/-- A requirement sighting used in the demonstration inputs. -/
def demoReq (i e : String) (m : Bool) : Requirement :=
  { id := i, id_externo := some e, descricao := "desc", nivel := some "1",
    fk_Secao_id := none, marked := m }

/-- A one-question submission used in the demonstration inputs. -/
def demoStory (a n : String) (reqs : List Requirement) : Story :=
  { userStory := { id := "S" ++ n, what := "w", who := "o", why := "y" }
    questions := [{ descricao := "q1",
                    questoesEspecificas := [{ descricao := "sq1", requirements := reqs }] }]
    analyst_id := a
    story_number := n }

/-- Story "5": analyst A marks R1 and R2. -/
def storyA5 : Story := demoStory "A" "5" [demoReq "1" "R1" true, demoReq "2" "R2" true]

/-- Story "5": analyst B marks R2 and R3. -/
def storyB5 : Story := demoStory "B" "5" [demoReq "2" "R2" true, demoReq "3" "R3" true]

/-- The two-analyst scenario of the specification. -/
def agrStories : List Story := [storyA5, storyB5]

/-- Story "7": analysts A and B both mark nothing. -/
def storyA7 : Story := demoStory "A" "7" [demoReq "1" "R1" false]

def storyB7 : Story := demoStory "B" "7" [demoReq "2" "R2" false]

def agrEmptyStories : List Story := [storyA7, storyB7]

/-- A story annotated by a single analyst. -/
def singleStories : List Story := [demoStory "A" "9" [demoReq "1" "R1" true]]

/-- Two submissions for story "5" by the same analyst with different marks. -/
def sameAnalystStories : List Story :=
  [demoStory "A" "5" [demoReq "1" "R1" true], demoStory "A" "5" [demoReq "2" "R2" true]]

/-! Claims C1, C2, C4 -/

/-- C1: for every story number annotated by at least two distinct
analysts, `get_analyst_agreement` produces a record whose
`agreement_ratio` equals `|intersection| / |union|` of the per-analyst
sets of marked requirement external ids whenever the union is non-empty,
and whose union/intersection counts are the cardinalities of those sets.
The concrete two-analyst scenario ({R1,R2} vs {R2,R3}: union 3,
intersection 1, ratio 1/3) is checked by the witness. -/
theorem claim_C1_agreement_ratio (stories : List Story) (n : String) (s1 s2 : Story)
    (hs1 : s1 ∈ variants stories n) (hs2 : s2 ∈ variants stories n)
    (hne : s1.analyst_id ≠ s2.analyst_id)
    (hU : unionAll ((analyst_requirements (variants stories n)).map Prod.snd) ≠ ∅) :
    ∃ rec ∈ get_analyst_agreement stories,
      rec.story_number = n ∧
      rec.total_unique_requirements =
        (unionAll ((analyst_requirements (variants stories n)).map Prod.snd)).card ∧
      rec.common_requirements =
        (interAll ((analyst_requirements (variants stories n)).map Prod.snd)).card ∧
      rec.agreement_ratio =
        ((interAll ((analyst_requirements (variants stories n)).map Prod.snd)).card : ℚ) /
          ((unionAll ((analyst_requirements (variants stories n)).map Prod.snd)).card : ℚ) := by
  obtain ⟨h1, h2⟩ := agreement_guards_of_two stories n s1 s2 hs1 hs2 hne
  have hpos : 0 < (unionAll ((analyst_requirements (variants stories n)).map Prod.snd)).card :=
    Finset.card_pos.mpr (Finset.nonempty_iff_ne_empty.mpr hU)
  refine ⟨agreementRecordFor stories n, agreement_record_mem stories n h1 h2, rfl, rfl, rfl, ?_⟩
  simp only [agreementRecordFor]
  rw [if_pos hpos]

theorem claim_C1_agreement_ratio_witness :
    (∃ rec ∈ get_analyst_agreement agrStories,
      rec.story_number = "5" ∧
      rec.total_unique_requirements =
        (unionAll ((analyst_requirements (variants agrStories "5")).map Prod.snd)).card ∧
      rec.common_requirements =
        (interAll ((analyst_requirements (variants agrStories "5")).map Prod.snd)).card ∧
      rec.agreement_ratio =
        ((interAll ((analyst_requirements (variants agrStories "5")).map Prod.snd)).card : ℚ) /
          ((unionAll ((analyst_requirements (variants agrStories "5")).map Prod.snd)).card : ℚ)) ∧
    (get_analyst_agreement agrStories).map
        (fun r => (r.total_unique_requirements, r.common_requirements, r.agreement_ratio)) =
      [(3, 1, 1/3)] :=
  ⟨claim_C1_agreement_ratio agrStories "5" storyA5 storyB5 (by decide) (by decide)
    (by decide) (by decide), rfl⟩

/-- C2: for every story number with at least two distinct analysts where
the union of the marked-id sets is empty, the computation is total (the
model is a function) and yields a record with `agreement_ratio = 1`. -/
theorem claim_C2_empty_union_ratio_one (stories : List Story) (n : String) (s1 s2 : Story)
    (hs1 : s1 ∈ variants stories n) (hs2 : s2 ∈ variants stories n)
    (hne : s1.analyst_id ≠ s2.analyst_id)
    (hU : unionAll ((analyst_requirements (variants stories n)).map Prod.snd) = ∅) :
    ∃ rec ∈ get_analyst_agreement stories,
      rec.story_number = n ∧ rec.agreement_ratio = 1 := by
  obtain ⟨h1, h2⟩ := agreement_guards_of_two stories n s1 s2 hs1 hs2 hne
  refine ⟨agreementRecordFor stories n, agreement_record_mem stories n h1 h2, rfl, ?_⟩
  simp only [agreementRecordFor]
  rw [hU]
  simp

theorem claim_C2_empty_union_ratio_one_witness :
    (∃ rec ∈ get_analyst_agreement agrEmptyStories,
      rec.story_number = "7" ∧ rec.agreement_ratio = 1) ∧
    (get_analyst_agreement agrEmptyStories).map (fun r => r.agreement_ratio) = [1] :=
  ⟨claim_C2_empty_union_ratio_one agrEmptyStories "7" storyA7 storyB7 (by decide) (by decide)
    (by decide) (by decide), rfl⟩

/-- C4: a story number with exactly one submission produces no agreement
record. -/
theorem claim_C4_single_analyst_skipped (stories : List Story) (n : String)
    (h : (variants stories n).length = 1) :
    ∀ rec ∈ get_analyst_agreement stories, rec.story_number ≠ n := by
  intro rec hrec hn
  rcases agreement_mem_inv stories rec hrec with ⟨m, heq, h1, _⟩
  have hm : rec.story_number = m := by rw [heq]; rfl
  have hmn : m = n := by rw [← hm, hn]
  rw [hmn] at h1
  exact h1 (Nat.le_of_eq h)

theorem claim_C4_single_analyst_skipped_witness :
    ((variants singleStories "9").length = 1) ∧
    (∀ rec ∈ get_analyst_agreement singleStories, rec.story_number ≠ "9") :=
  ⟨by decide, claim_C4_single_analyst_skipped singleStories "9" (by decide)⟩

/-! Claim C8 -/

/-- C8: for a story with at least two distinct analysts and a non-empty
union of marked sets, the produced `agreement_ratio` lies in `[0, 1]` and
equals `1` exactly when the set of every analyst (the values of the
`analyst_requirements` dict) is the same set. -/
theorem claim_C8_ratio_bounds_iff (stories : List Story) (n : String) (s1 s2 : Story)
    (hs1 : s1 ∈ variants stories n) (hs2 : s2 ∈ variants stories n)
    (hne : s1.analyst_id ≠ s2.analyst_id)
    (hU : unionAll ((analyst_requirements (variants stories n)).map Prod.snd) ≠ ∅) :
    ∃ rec ∈ get_analyst_agreement stories,
      rec.story_number = n ∧
      0 ≤ rec.agreement_ratio ∧ rec.agreement_ratio ≤ 1 ∧
      (rec.agreement_ratio = 1 ↔
        ∀ p ∈ analyst_requirements (variants stories n),
          ∀ q ∈ analyst_requirements (variants stories n), p.2 = q.2) := by
  obtain ⟨h1, h2⟩ := agreement_guards_of_two stories n s1 s2 hs1 hs2 hne
  have hpos : 0 < (unionAll ((analyst_requirements (variants stories n)).map Prod.snd)).card :=
    Finset.card_pos.mpr (Finset.nonempty_iff_ne_empty.mpr hU)
  have hvne : (analyst_requirements (variants stories n)).map Prod.snd ≠ [] := by
    intro hnil
    have := List.length_eq_zero.mpr hnil
    rw [List.length_map] at this
    omega
  have hsub : interAll ((analyst_requirements (variants stories n)).map Prod.snd) ⊆
      unionAll ((analyst_requirements (variants stories n)).map Prod.snd) :=
    interAll_subset_unionAll _ hvne
  have hcard : (interAll ((analyst_requirements (variants stories n)).map Prod.snd)).card ≤
      (unionAll ((analyst_requirements (variants stories n)).map Prod.snd)).card :=
    Finset.card_le_card hsub
  have hupos : (0 : ℚ) <
      ((unionAll ((analyst_requirements (variants stories n)).map Prod.snd)).card : ℚ) := by
    exact_mod_cast hpos
  have hratio : (agreementRecordFor stories n).agreement_ratio =
      ((interAll ((analyst_requirements (variants stories n)).map Prod.snd)).card : ℚ) /
        ((unionAll ((analyst_requirements (variants stories n)).map Prod.snd)).card : ℚ) := by
    simp only [agreementRecordFor]
    rw [if_pos hpos]
  refine ⟨agreementRecordFor stories n, agreement_record_mem stories n h1 h2, rfl, ?_, ?_, ?_⟩
  · rw [hratio]
    exact div_nonneg (by positivity) (le_of_lt hupos)
  · rw [hratio]
    rw [div_le_one hupos]
    exact_mod_cast hcard
  · rw [hratio]
    rw [div_eq_one_iff_eq (ne_of_gt hupos)]
    constructor
    · intro hiu
      have hc : (unionAll ((analyst_requirements (variants stories n)).map Prod.snd)).card ≤
          (interAll ((analyst_requirements (variants stories n)).map Prod.snd)).card := by
        exact_mod_cast le_of_eq hiu.symm
      have heq : interAll ((analyst_requirements (variants stories n)).map Prod.snd) =
          unionAll ((analyst_requirements (variants stories n)).map Prod.snd) :=
        Finset.eq_of_subset_of_card_le hsub hc
      intro p hp q hq
      have hmemp : p.2 ∈ (analyst_requirements (variants stories n)).map Prod.snd :=
        List.mem_map.mpr ⟨p, hp, rfl⟩
      have hmemq : q.2 ∈ (analyst_requirements (variants stories n)).map Prod.snd :=
        List.mem_map.mpr ⟨q, hq, rfl⟩
      have hval : ∀ s ∈ (analyst_requirements (variants stories n)).map Prod.snd,
          s = unionAll ((analyst_requirements (variants stories n)).map Prod.snd) := by
        intro s hs
        apply Finset.Subset.antisymm
        · intro x hx
          exact (mem_unionAll x _).mpr ⟨s, hs, hx⟩
        · intro x hx
          rw [← heq, mem_interAll x _ hvne] at hx
          exact hx s hs
      rw [hval p.2 hmemp, hval q.2 hmemq]
    · intro hall
      have heq : interAll ((analyst_requirements (variants stories n)).map Prod.snd) =
          unionAll ((analyst_requirements (variants stories n)).map Prod.snd) := by
        apply interAll_eq_unionAll_of_all_eq _ hvne
        intro s hs t ht
        rcases List.mem_map.mp hs with ⟨p, hp, hps⟩
        rcases List.mem_map.mp ht with ⟨q, hq, hqt⟩
        rw [← hps, ← hqt]
        exact hall p hp q hq
      rw [heq]

theorem claim_C8_ratio_bounds_iff_witness :
    ∃ rec ∈ get_analyst_agreement agrStories,
      rec.story_number = "5" ∧
      0 ≤ rec.agreement_ratio ∧ rec.agreement_ratio ≤ 1 ∧
      (rec.agreement_ratio = 1 ↔
        ∀ p ∈ analyst_requirements (variants agrStories "5"),
          ∀ q ∈ analyst_requirements (variants agrStories "5"), p.2 = q.2) :=
  claim_C8_ratio_bounds_iff agrStories "5" storyA5 storyB5 (by decide) (by decide)
    (by decide) (by decide)

/-! Claim C10 -/

/-- C10: (a) reading the entry of an analyst from the `analyst_requirements`
dict yields the marked set of the LAST submission of that analyst for the
story (earlier ones are silently replaced); (b) a story number all of
whose submissions come from one analyst yields no agreement record even
when it has two or more submissions (the hypothesis allows any number). -/
theorem claim_C10_last_wins_single_analyst :
    (∀ (v : List Story) (a : String),
      lookupDict (analyst_requirements v) a =
        ((v.filter (fun s => decide (s.analyst_id = a))).getLast?).map markedSet) ∧
    (∀ (stories : List Story) (n : String) (a : String),
      (∀ s ∈ variants stories n, s.analyst_id = a) →
      ∀ rec ∈ get_analyst_agreement stories, rec.story_number ≠ n) := by
  constructor
  · intro v a
    have h := lookupDict_foldl_dictSet (fun s => s.analyst_id) (fun s => markedSet s) v [] a
    rw [analyst_requirements, h]
    cases (v.filter (fun s => decide (s.analyst_id = a))).getLast? with
    | some s => rfl
    | none => rfl

  · intro stories n a hall rec hrec hn
    rcases agreement_mem_inv stories rec hrec with ⟨m, heq, _, h2⟩
    have hm : rec.story_number = m := by rw [heq]; rfl
    have hmn : m = n := by rw [← hm, hn]
    rw [hmn] at h2
    have := analyst_requirements_length_le_one (variants stories n) a hall
    omega

theorem claim_C10_last_wins_single_analyst_witness :
    (lookupDict (analyst_requirements sameAnalystStories) "A" =
      ((sameAnalystStories.filter (fun s => decide (s.analyst_id = "A"))).getLast?).map
        markedSet) ∧
    (lookupDict (analyst_requirements sameAnalystStories) "A" =
      some ({some "R2"} : Finset (Option String))) ∧
    (∀ rec ∈ get_analyst_agreement sameAnalystStories, rec.story_number ≠ "5") :=
  ⟨claim_C10_last_wins_single_analyst.1 sameAnalystStories "A", by decide,
    claim_C10_last_wins_single_analyst.2 sameAnalystStories "5" "A" (by decide)⟩

/-! Claim C3: frequency and duplicate nested placements -/

/-- A submission in which the same requirement (external id R1, internal
id 10) appears marked under two different specific questions. -/
def dupStory : Story :=
  { userStory := { id := "S5", what := "w", who := "o", why := "y" }
    questions := [{ descricao := "q1",
                    questoesEspecificas :=
                      [{ descricao := "sq1", requirements := [demoReq "10" "R1" true] },
                       { descricao := "sq2", requirements := [demoReq "10" "R1" true] }] }]
    analyst_id := "A"
    story_number := "5" }

/-- C3 (evaluation at the failing input): the source counts each marked
occurrence, so a requirement marked twice inside ONE submission gets
frequency 2, while the deduplicated marked-id set of only 1 submission
contains it — the code does not deduplicate per submission. -/
theorem claim_C3_frequency_counts_duplicates :
    get_requirement_frequency [dupStory] (some "R1") = 2 ∧
    ([dupStory].filter (fun s =>
        decide (some "R1" ∈ (get_marked_requirements s).map (fun r => r.id_externo)))).length
      = 1 ∧
    get_requirement_frequency [dupStory] (some "R1") ≠
      ([dupStory].filter (fun s =>
        decide (some "R1" ∈ (get_marked_requirements s).map (fun r => r.id_externo)))).length :=
  ⟨by decide, by decide, by decide⟩

/-! Claim C7: the requirement catalog -/

/-- Two sightings with the SAME internal id and external id R1 but
different descriptions, in one submission. -/
def overwriteStory : Story :=
  { userStory := { id := "S1", what := "w", who := "o", why := "y" }
    questions := [{ descricao := "q1",
                    questoesEspecificas :=
                      [{ descricao := "sq1",
                         requirements :=
                           [{ id := "a", id_externo := some "R1", descricao := "first",
                              nivel := some "1", fk_Secao_id := none, marked := false },
                            { id := "a", id_externo := some "R1", descricao := "second",
                              nivel := some "1", fk_Secao_id := none, marked := false }] }] }]
    analyst_id := "A"
    story_number := "1" }

/-- C7 (counterexample): the catalog is keyed by the INTERNAL id (the
external id "R1" is not a key), and a second sighting under the same key
overwrites the metadata of the first one — last write wins, not first. -/
theorem claim_C7_counterexample :
    ((lookupDict (extract_requirements_info [] overwriteStory) "a").map
        (fun e => e.descricao) = some "second") ∧
    lookupDict (extract_requirements_info [] overwriteStory) "R1" = none ∧
    ("second" : String) ≠ "first" :=
  ⟨by decide, by decide, by decide⟩

theorem filter_filter_and {γ : Type} (p q : γ → Bool) (l : List γ) :
    (l.filter p).filter q = l.filter (fun x => p x && q x) := by
  induction l with
  | nil => rfl
  | cons x rest ih =>
    by_cases hp : p x = true
    · by_cases hq : q x = true
      · simp [List.filter_cons, hp, hq, ih]
      · simp [List.filter_cons, hp, hq, ih]
    · simp [List.filter_cons, hp, ih]

/-- C7 (amended): registration is an upsert keyed by the
INTERNAL id; every sighting with a truthy external id (marked or not) is
registered, and when sightings share the same internal id the
metadata of the LAST-processed sighting stands (later sightings overwrite). -/
theorem claim_C7_catalog_keyed_by_internal_id (catalog : List (String × CatalogEntry))
    (story : Story) (i : String) :
    (lookupDict (extract_requirements_info catalog story) i =
      (((allReqs story).filter
          (fun r => truthyOpt r.id_externo && decide (r.id = i))).getLast?).elim
        (lookupDict catalog i) (fun r => some (mkCatalogEntry r))) ∧
    (∀ r ∈ allReqs story, truthyOpt r.id_externo = true →
      ∃ e, lookupDict (extract_requirements_info catalog story) r.id = some e) := by
  have hmain : ∀ j : String, lookupDict (extract_requirements_info catalog story) j =
      (((allReqs story).filter
          (fun r => truthyOpt r.id_externo && decide (r.id = j))).getLast?).elim
        (lookupDict catalog j) (fun r => some (mkCatalogEntry r)) := by
    intro j
    rw [extract_requirements_info,
      foldl_guard (fun r => truthyOpt r.id_externo) (fun c r => dictSet c r.id (mkCatalogEntry r)),
      lookupDict_foldl_dictSet (fun r => r.id) mkCatalogEntry, filter_filter_and]
  refine ⟨hmain i, ?_⟩
  intro r hr htruthy
  rw [hmain r.id]
  have hmemf : r ∈ (allReqs story).filter
      (fun q => truthyOpt q.id_externo && decide (q.id = r.id)) :=
    List.mem_filter.mpr ⟨hr, by simp [htruthy]⟩
  have hne : (allReqs story).filter
      (fun q => truthyOpt q.id_externo && decide (q.id = r.id)) ≠ [] := by
    intro hnil
    rw [hnil] at hmemf
    cases hmemf
  cases hlast : ((allReqs story).filter
      (fun q => truthyOpt q.id_externo && decide (q.id = r.id))).getLast? with
  | some q => exact ⟨mkCatalogEntry q, rfl⟩
  | none =>
    rw [List.getLast?_eq_getLast _ hne] at hlast
    cases hlast

theorem claim_C7_catalog_keyed_by_internal_id_witness :
    (lookupDict (extract_requirements_info [] overwriteStory) "a" =
      (((allReqs overwriteStory).filter
          (fun r => truthyOpt r.id_externo && decide (r.id = "a"))).getLast?).elim
        (lookupDict ([] : List (String × CatalogEntry)) "a")
        (fun r => some (mkCatalogEntry r))) ∧
    (∀ r ∈ allReqs overwriteStory, truthyOpt r.id_externo = true →
      ∃ e, lookupDict (extract_requirements_info [] overwriteStory) r.id = some e) :=
  claim_C7_catalog_keyed_by_internal_id [] overwriteStory "a"

/-! Claim C6: filename fallback identity -/

theorem splitCh_of_not_mem (sep : Char) :
    ∀ (l : List Char), sep ∉ l → splitCh sep l = [l] := by
  intro l
  induction l with
  | nil => intro _; rfl
  | cons c cs ih =>
    intro h
    have hc : ¬ c = sep := fun hcs => h (hcs ▸ List.mem_cons_self c cs)
    have hcs : sep ∉ cs := fun hs => h (List.mem_cons_of_mem c hs)
    rw [splitCh, ih hcs]
    simp [hc]

/-- C6 (counterexample): a filename that matches neither the pattern nor
contains an underscore.  The fallback stores the WHOLE filename as the
analyst id — not the "unknown" sentinel the claim asserts — and only the
story number falls back to "unknown"; no exception is raised (the model
is a total function). -/
theorem claim_C6_counterexample :
    storyPatternMatch "data.json" = none ∧
    processFileIdentity "data.json" none = ("data.json", "unknown") ∧
    ("data.json" : String) ≠ "unknown" :=
  ⟨by decide, by decide, by decide⟩

/-- C6 (amended): when the pattern fails, the fallback splits on `_` and
takes the FIRST segment as analyst id (for a filename with no underscore
this is the whole filename, never "unknown"), and the second segment up
to its first `.` as story number, substituting "unknown" for the story
number only when there is no second segment; no exception is raised. -/
theorem claim_C6_fallback_identity (filename : String)
    (h : storyPatternMatch filename = none) :
    processFileIdentity filename none = fallbackIdentity filename ∧
    ('_' ∉ filename.data → processFileIdentity filename none = (filename, "unknown")) := by
  have hbase : processFileIdentity filename none = fallbackIdentity filename := by
    rw [processFileIdentity, h]
  refine ⟨hbase, ?_⟩
  intro hund
  rw [hbase, fallbackIdentity, pySplit, splitCh_of_not_mem '_' filename.data hund]
  rfl

theorem claim_C6_fallback_identity_witness :
    storyPatternMatch "data.json" = none ∧
    (processFileIdentity "data.json" none = fallbackIdentity "data.json" ∧
      ('_' ∉ ("data.json" : String).data →
        processFileIdentity "data.json" none = ("data.json", "unknown"))) :=
  ⟨by decide, claim_C6_fallback_identity "data.json" (by decide)⟩

/-! Sorting and rounding lemmas for the comparison -/

theorem mem_insertSorted {α : Type} (le : α → α → Bool) (x a : α) :
    ∀ (l : List α), a ∈ insertSorted le x l ↔ a = x ∨ a ∈ l := by
  intro l
  induction l with
  | nil => simp [insertSorted]
  | cons y ys ih =>
    rw [insertSorted]
    by_cases hle : le x y = true
    · rw [if_pos hle]
      simp [List.mem_cons]
    · rw [if_neg hle]
      simp only [List.mem_cons, ih]
      tauto

theorem mem_sortBy {α : Type} (le : α → α → Bool) (a : α) :
    ∀ (l : List α), a ∈ sortBy le l ↔ a ∈ l := by
  intro l
  induction l with
  | nil => simp [sortBy]
  | cons y ys ih =>
    rw [sortBy, List.foldr_cons]
    rw [show List.foldr (insertSorted le) [] ys = sortBy le ys from rfl]
    rw [mem_insertSorted, ih]
    simp [List.mem_cons]

theorem length_insertSorted {α : Type} (le : α → α → Bool) (x : α) :
    ∀ (l : List α), (insertSorted le x l).length = l.length + 1 := by
  intro l
  induction l with
  | nil => rfl
  | cons y ys ih =>
    rw [insertSorted]
    by_cases hle : le x y = true
    · rw [if_pos hle]
      rfl
    · rw [if_neg hle]
      simp [List.length_cons, ih]

theorem length_sortBy {α : Type} (le : α → α → Bool) :
    ∀ (l : List α), (sortBy le l).length = l.length := by
  intro l
  induction l with
  | nil => rfl
  | cons y ys ih =>
    rw [sortBy, List.foldr_cons]
    rw [show List.foldr (insertSorted le) [] ys = sortBy le ys from rfl]
    rw [length_insertSorted, ih]
    rfl

theorem mem_pySetList (a : String) (l : List String) : a ∈ pySetList l ↔ a ∈ l :=
  mem_dedupFirst a l

/-- Rounding never moves below a lower integer bound. -/
theorem roundHalfEvenZ_nonneg (q : ℚ) (h : 0 ≤ q) : 0 ≤ roundHalfEvenZ q := by
  unfold roundHalfEvenZ
  have hf : (0 : ℤ) ≤ ⌊q⌋ := Int.floor_nonneg.mpr h
  split_ifs <;> omega

/-- Rounding never moves above an integer upper bound. -/
theorem roundHalfEvenZ_le (q : ℚ) (B : ℤ) (h : q ≤ (B : ℚ)) : roundHalfEvenZ q ≤ B := by
  unfold roundHalfEvenZ
  have hfB : ⌊q⌋ ≤ B := by
    have h2 := Int.floor_le_floor h
    rw [Int.floor_intCast] at h2
    exact h2
  have hfq : (⌊q⌋ : ℚ) ≤ q := Int.floor_le q
  split_ifs with h1 h2 h3
  · exact hfB
  · have hlt : (⌊q⌋ : ℚ) < (B : ℚ) := by linarith
    have : ⌊q⌋ < B := by exact_mod_cast hlt
    omega
  · exact hfB
  · have hhalf : (1 : ℚ) / 2 ≤ q - ⌊q⌋ := le_of_not_lt h1
    have hlt : (⌊q⌋ : ℚ) < (B : ℚ) := by linarith
    have : ⌊q⌋ < B := by exact_mod_cast hlt
    omega

/-- `round2` keeps a value of `[0, 100]` inside `[0, 100]`. -/
theorem round2_bounds (q : ℚ) (h0 : 0 ≤ q) (h100 : q ≤ 100) :
    0 ≤ round2 q ∧ round2 q ≤ 100 := by
  unfold round2
  have hq0 : 0 ≤ q * 100 := by linarith
  have hq1 : q * 100 ≤ ((10000 : ℤ) : ℚ) := by push_cast; linarith
  have hr0 := roundHalfEvenZ_nonneg (q * 100) hq0
  have hr1 := roundHalfEvenZ_le (q * 100) 10000 hq1
  constructor
  · apply div_nonneg _ (by norm_num)
    exact_mod_cast hr0
  · rw [div_le_iff₀ (by norm_num : (0:ℚ) < 100)]
    have : ((roundHalfEvenZ (q * 100) : ℤ) : ℚ) ≤ ((10000 : ℤ) : ℚ) := by exact_mod_cast hr1
    push_cast at this ⊢
    linarith

/-! Claim C9 -/

/-- C9: in every row of the comparison output the three difference
columns are pairwise disjoint, `intersecao ∪ so_ia` recovers the
automated set (`marcacoes_ia`) and `intersecao ∪ so_analistas` recovers
the pooled human set (`marcacoes_analistas`), and the accuracy lies in
`[0, 100]`. -/
theorem claim_C9_partition_and_bounds (ia analistas : List (Int × List String))
    (rec : ComparisonRecord) (hrec : rec ∈ comparar ia analistas) :
    (∀ x ∈ rec.intersecao, x ∉ rec.so_ia) ∧
    (∀ x ∈ rec.intersecao, x ∉ rec.so_analistas) ∧
    (∀ x ∈ rec.so_ia, x ∉ rec.so_analistas) ∧
    (∀ x, x ∈ rec.marcacoes_ia ↔ (x ∈ rec.intersecao ∨ x ∈ rec.so_ia)) ∧
    (∀ x, x ∈ rec.marcacoes_analistas ↔ (x ∈ rec.intersecao ∨ x ∈ rec.so_analistas)) ∧
    0 ≤ rec.acuracia ∧ rec.acuracia ≤ 100 := by
  rcases List.mem_map.mp hrec with ⟨h, _, hrow⟩
  subst hrow
  simp only [comparisonRowFor]
  constructor
  · intro x hx hx2
    rw [mem_sortBy, List.mem_filter] at hx hx2
    rcases hx with ⟨_, hxin⟩
    rcases hx2 with ⟨_, hxout⟩
    rw [decide_eq_true_eq] at hxin hxout
    exact hxout hxin
  constructor
  · intro x hx hx2
    rw [mem_sortBy, List.mem_filter] at hx hx2
    rcases hx with ⟨hxA, _⟩
    rcases hx2 with ⟨_, hxnotA⟩
    rw [mem_pySetList] at hxA
    rw [decide_eq_true_eq] at hxnotA
    exact hxnotA hxA
  constructor
  · intro x hx hx2
    rw [mem_sortBy, List.mem_filter] at hx hx2
    rcases hx with ⟨hxA, _⟩
    rcases hx2 with ⟨_, hxnotA⟩
    rw [mem_pySetList] at hxA
    rw [decide_eq_true_eq] at hxnotA
    exact hxnotA hxA
  constructor
  · intro x
    rw [mem_sortBy]
    constructor
    · intro hxA
      by_cases hxH : x ∈ (lookupDict analistas h).getD []
      · exact Or.inl (by
          rw [mem_sortBy, List.mem_filter]
          exact ⟨hxA, by simpa using hxH⟩)
      · exact Or.inr (by
          rw [mem_sortBy, List.mem_filter]
          exact ⟨hxA, by simpa using hxH⟩)
    · rintro (hx | hx) <;>
      · rw [mem_sortBy, List.mem_filter] at hx
        exact hx.1
  constructor
  · intro x
    rw [mem_sortBy]
    constructor
    · intro hxH
      by_cases hxA : x ∈ (lookupDict ia h).getD []
      · refine Or.inl ?_
        rw [mem_sortBy, List.mem_filter]
        rw [mem_pySetList] at hxH
        exact ⟨(mem_pySetList x _).mpr hxA, by simpa using hxH⟩
      · refine Or.inr ?_
        rw [mem_sortBy, List.mem_filter]
        exact ⟨hxH, by simpa using hxA⟩
    · rintro (hx | hx)
      · rw [mem_sortBy, List.mem_filter] at hx
        rcases hx with ⟨hxA, hxin⟩
        rw [decide_eq_true_eq] at hxin
        rw [mem_pySetList]
        exact hxin
      · rw [mem_sortBy, List.mem_filter] at hx
        exact hx.1
  · by_cases hempty : ((pySetList ((lookupDict ia h).getD [])).isEmpty : Bool) = true
    · rw [if_pos hempty]
      norm_num
    · rw [if_neg hempty]
      have hlen0 : 0 < (pySetList ((lookupDict ia h).getD [])).length := by
        cases hl : pySetList ((lookupDict ia h).getD []) with
        | nil => rw [hl] at hempty; simp [List.isEmpty] at hempty
        | cons a as => simp [hl]
      have hfle : ((pySetList ((lookupDict ia h).getD [])).filter
          (fun x => decide (x ∈ (lookupDict analistas h).getD []))).length ≤
          (pySetList ((lookupDict ia h).getD [])).length := List.length_filter_le _ _
      have hq0 : (0 : ℚ) ≤
          (((pySetList ((lookupDict ia h).getD [])).filter
            (fun x => decide (x ∈ (lookupDict analistas h).getD []))).length : ℚ) /
          ((pySetList ((lookupDict ia h).getD [])).length : ℚ) * 100 := by
        apply mul_nonneg _ (by norm_num)
        apply div_nonneg (by positivity)
        positivity
      have hq100 : (((pySetList ((lookupDict ia h).getD [])).filter
            (fun x => decide (x ∈ (lookupDict analistas h).getD []))).length : ℚ) /
          ((pySetList ((lookupDict ia h).getD [])).length : ℚ) * 100 ≤ 100 := by
        have hpos : (0 : ℚ) < ((pySetList ((lookupDict ia h).getD [])).length : ℚ) := by
          exact_mod_cast hlen0
        have hdiv : (((pySetList ((lookupDict ia h).getD [])).filter
              (fun x => decide (x ∈ (lookupDict analistas h).getD []))).length : ℚ) /
            ((pySetList ((lookupDict ia h).getD [])).length : ℚ) ≤ 1 := by
          rw [div_le_one hpos]
          exact_mod_cast hfle
        nlinarith
      exact round2_bounds _ hq0 hq100

/-- Automated marks of the specification scenario: story 7, {Q1, Q2}. -/
def cmpIa : List (Int × List String) := [(7, ["Q1", "Q2"])]

/-- Pooled human marks of the specification scenario: story 7, {Q2, Q3}. -/
def cmpAn : List (Int × List String) := [(7, ["Q2", "Q3"])]

theorem claim_C9_partition_and_bounds_witness :
    (∀ x ∈ (comparisonRowFor cmpIa cmpAn 7).intersecao,
      x ∉ (comparisonRowFor cmpIa cmpAn 7).so_ia) ∧
    (∀ x ∈ (comparisonRowFor cmpIa cmpAn 7).intersecao,
      x ∉ (comparisonRowFor cmpIa cmpAn 7).so_analistas) ∧
    (∀ x ∈ (comparisonRowFor cmpIa cmpAn 7).so_ia,
      x ∉ (comparisonRowFor cmpIa cmpAn 7).so_analistas) ∧
    (∀ x, x ∈ (comparisonRowFor cmpIa cmpAn 7).marcacoes_ia ↔
      (x ∈ (comparisonRowFor cmpIa cmpAn 7).intersecao ∨
        x ∈ (comparisonRowFor cmpIa cmpAn 7).so_ia)) ∧
    (∀ x, x ∈ (comparisonRowFor cmpIa cmpAn 7).marcacoes_analistas ↔
      (x ∈ (comparisonRowFor cmpIa cmpAn 7).intersecao ∨
        x ∈ (comparisonRowFor cmpIa cmpAn 7).so_analistas)) ∧
    0 ≤ (comparisonRowFor cmpIa cmpAn 7).acuracia ∧
    (comparisonRowFor cmpIa cmpAn 7).acuracia ≤ 100 :=
  claim_C9_partition_and_bounds cmpIa cmpAn (comparisonRowFor cmpIa cmpAn 7)
    (List.mem_map.mpr ⟨7, by decide, rfl⟩)

/-! Claim C5 -/

/-- Automated marks for the counterexample: story 1, {Q1, Q2, Q3}. -/
def cexIa : List (Int × List String) := [(1, ["Q1", "Q2", "Q3"])]

/-- Pooled human marks for the counterexample: story 1, {Q1}. -/
def cexAn : List (Int × List String) := [(1, ["Q1"])]

/-- C5 (counterexample): the source rounds the accuracy to two decimals
(`round(..., 2)`), so with automated set of size 3 and intersection of
size 1 the stored accuracy is 33.33, which differs from the exact value
`|intersection| / |automated| * 100 = 100/3` the claim asserts. -/
theorem claim_C5_counterexample :
    ∃ rec ∈ comparar cexIa cexAn,
      rec.acuracia ≠
        ((rec.intersecao.length : ℚ) / (rec.marcacoes_ia.length : ℚ)) * 100 := by
  refine ⟨comparisonRowFor cexIa cexAn 1, List.mem_map.mpr ⟨1, by decide, rfl⟩, ?_⟩
  have hacc : (comparisonRowFor cexIa cexAn 1).acuracia =
      round2 (((1 : ℕ) : ℚ) / ((3 : ℕ) : ℚ) * 100) := rfl
  have hl1 : (comparisonRowFor cexIa cexAn 1).intersecao.length = 1 := by decide
  have hl2 : (comparisonRowFor cexIa cexAn 1).marcacoes_ia.length = 3 := by decide
  rw [hacc, hl1, hl2]
  norm_num [round2, roundHalfEvenZ]

/-- C5 (amended): for every story number present in either source, the
output row has accuracy `round(|intersection| / |automated| * 100, 2)` —
the exact ratio ROUNDED TO TWO DECIMALS (ties to even) — when the
automated set is non-empty, and exactly `0.0` when the automated set is
empty regardless of the human set; the scenario ({Q1,Q2} vs {Q2,Q3})
yields intersection {Q2}, automated-only {Q1}, human-only {Q3} and
accuracy 50.0 (checked by the witness). -/
theorem claim_C5_accuracy_rounded (ia analistas : List (Int × List String)) (h : Int)
    (hmem : h ∈ ia.map (fun p => p.1) ++ analistas.map (fun p => p.1)) :
    ∃ rec ∈ comparar ia analistas,
      rec.story_number = h ∧
      (rec.marcacoes_ia = [] → rec.acuracia = 0) ∧
      (rec.marcacoes_ia ≠ [] →
        rec.acuracia =
          round2 (((rec.intersecao.length : ℚ) / (rec.marcacoes_ia.length : ℚ)) * 100)) := by
  have hmem2 : h ∈ sortBy (fun a b => decide (a ≤ b))
      (dedupFirst (ia.map (fun p => p.1) ++ analistas.map (fun p => p.1))) := by
    rw [mem_sortBy, mem_dedupFirst]
    exact hmem
  refine ⟨comparisonRowFor ia analistas h, List.mem_map.mpr ⟨h, hmem2, rfl⟩, rfl, ?_, ?_⟩
  · intro hE
    have hlen : (pySetList ((lookupDict ia h).getD [])).length = 0 := by
      have := congrArg List.length hE
      rw [show (comparisonRowFor ia analistas h).marcacoes_ia =
        sortBy strLe (pySetList ((lookupDict ia h).getD [])) from rfl] at this
      rw [length_sortBy] at this
      simpa using this
    have hnil : pySetList ((lookupDict ia h).getD []) = [] := List.length_eq_zero.mp hlen
    show (if (pySetList ((lookupDict ia h).getD [])).isEmpty then (0 : ℚ) else _) = 0
    rw [hnil]
    rfl
  · intro hNE
    have hnil : pySetList ((lookupDict ia h).getD []) ≠ [] := by
      intro hn
      apply hNE
      rw [show (comparisonRowFor ia analistas h).marcacoes_ia =
        sortBy strLe (pySetList ((lookupDict ia h).getD [])) from rfl, hn]
      rfl
    have hempty : (pySetList ((lookupDict ia h).getD [])).isEmpty = false := by
      cases hl : pySetList ((lookupDict ia h).getD []) with
      | nil => exact absurd hl hnil
      | cons a as => rfl
    have hli : (comparisonRowFor ia analistas h).intersecao.length =
        ((pySetList ((lookupDict ia h).getD [])).filter
          (fun x => decide (x ∈ (lookupDict analistas h).getD []))).length := by
      rw [show (comparisonRowFor ia analistas h).intersecao =
        sortBy strLe ((pySetList ((lookupDict ia h).getD [])).filter
          (fun x => decide (x ∈ (lookupDict analistas h).getD []))) from rfl, length_sortBy]
    have hla : (comparisonRowFor ia analistas h).marcacoes_ia.length =
        (pySetList ((lookupDict ia h).getD [])).length := by
      rw [show (comparisonRowFor ia analistas h).marcacoes_ia =
        sortBy strLe (pySetList ((lookupDict ia h).getD [])) from rfl, length_sortBy]
    rw [hli, hla]
    show (if (pySetList ((lookupDict ia h).getD [])).isEmpty then (0 : ℚ) else _) = _
    rw [hempty]
    rfl

theorem claim_C5_accuracy_rounded_witness :
    (∃ rec ∈ comparar cmpIa cmpAn,
      rec.story_number = 7 ∧
      (rec.marcacoes_ia = [] → rec.acuracia = 0) ∧
      (rec.marcacoes_ia ≠ [] →
        rec.acuracia =
          round2 (((rec.intersecao.length : ℚ) / (rec.marcacoes_ia.length : ℚ)) * 100))) ∧
    (comparar cmpIa cmpAn).map (fun r => (r.intersecao, r.so_ia, r.so_analistas)) =
      [(["Q2"], ["Q1"], ["Q3"])] ∧
    (comparar cmpIa cmpAn).map (fun r => r.acuracia) = [50] := by
  refine ⟨claim_C5_accuracy_rounded cmpIa cmpAn 7 (by decide), by decide, ?_⟩
  have h1 : (comparar cmpIa cmpAn).map (fun r => r.acuracia) =
      [round2 (((1 : ℕ) : ℚ) / ((2 : ℕ) : ℚ) * 100)] := rfl
  have h2 : round2 (((1 : ℕ) : ℚ) / ((2 : ℕ) : ℚ) * 100) = 50 := by
    norm_num [round2, roundHalfEvenZ]
  rw [h1, h2]
